import Mathlib

/-!
Verification development for the EduVerse chat client.

The embedded code is the `useChat` hook (the `streamChat` SSE decoder and
the `sendMessage` session flow) and the `useConversations` hook (transcript
loading and reset).  The decoder is modelled at the byte level: a chunk is a
`List Nat` of byte values, and the `TextDecoder` with `stream: true` is
absorbed by working on bytes directly (all structural tokens of the SSE
framing and of JSON are ASCII, so byte-level line splitting and parsing
agree with the source's string-level processing; bytes ≥ 0x80 appear only
inside JSON strings and pass through opaquely).
-/

/-! ### Bytes and text helpers -/

/-- Byte sequences: the decoder's buffer, lines and JSON payloads. -/
abbrev Bytes := List Nat

/-- UTF-8 encoding of a code point, used to build concrete byte strings and
to decode `\uXXXX` escapes the way `JSON.parse` materialises them. -/
def utf8Encode (n : Nat) : Bytes :=
  if n < 128 then [n]
  else if n < 2048 then [192 + n / 64, 128 + n % 64]
  else if n < 65536 then [224 + n / 4096, 128 + n / 64 % 64, 128 + n % 64]
  else [240 + n / 262144, 128 + n / 4096 % 64, 128 + n / 64 % 64, 128 + n % 64]

/-- The UTF-8 bytes of a Lean string literal. -/
def strBytes (s : String) : Bytes :=
  s.data.foldr (fun c acc => utf8Encode c.toNat ++ acc) []

/-- Whitespace recognised by JavaScript `String.prototype.trim` (ASCII part:
tab, LF, VT, FF, CR, space; the Unicode space classes never occur in the
protocol frames handled here). -/
def isTrimWs (b : Nat) : Bool :=
  b = 32 || b = 9 || b = 10 || b = 11 || b = 12 || b = 13

/-- Model of `String.prototype.trim`. -/
def trimBytes (l : Bytes) : Bytes :=
  List.rdropWhile isTrimWs (l.dropWhile isTrimWs)

/-- JSON insignificant whitespace (space, tab, LF, CR). -/
def isJsonWs (b : Nat) : Bool :=
  b = 32 || b = 9 || b = 10 || b = 13

def skipWsJ (s : Bytes) : Bytes := s.dropWhile isJsonWs

/-! ### JSON values and parser (model of `JSON.parse`)

`JSON.parse` is modelled as a fuelled recursive-descent parser over bytes.
String values are stored unescaped, as `JSON.parse` materialises them
(surrogate pairs in `\u` escapes are encoded code point by code point,
which only affects astral-plane escape sequences, none of which occur in
any statement below).  Numbers keep their raw numeral bytes.  Duplicate
object keys resolve to the last occurrence, as in JavaScript. -/

inductive JVal where
  | jnull : JVal
  | jbool : Bool → JVal
  | jnum : Bytes → JVal
  | jstr : Bytes → JVal
  | jarr : List JVal → JVal
  | jobj : List (Bytes × JVal) → JVal

/-- Value of a hex digit byte. -/
def hexVal (b : Nat) : Option Nat :=
  if 48 ≤ b ∧ b ≤ 57 then some (b - 48)
  else if 65 ≤ b ∧ b ≤ 70 then some (b - 55)
  else if 97 ≤ b ∧ b ≤ 102 then some (b - 87)
  else none

/-- Body of a JSON string after the opening quote: returns the unescaped
content bytes and the input after the closing quote. -/
def parseStringBody : Nat → Bytes → Option (Bytes × Bytes)
  | 0, _ => none
  | _, [] => none
  | fuel + 1, b :: rest =>
    if b = 34 then some ([], rest)
    else if b = 92 then
      match rest with
      | [] => none
      | e :: rest2 =>
        let esc : Option (Bytes × Bytes) :=
          if e = 34 then some ([34], rest2)
          else if e = 92 then some ([92], rest2)
          else if e = 47 then some ([47], rest2)
          else if e = 98 then some ([8], rest2)
          else if e = 102 then some ([12], rest2)
          else if e = 110 then some ([10], rest2)
          else if e = 114 then some ([13], rest2)
          else if e = 116 then some ([9], rest2)
          else if e = 117 then
            match rest2 with
            | h1 :: h2 :: h3 :: h4 :: rest3 =>
              match hexVal h1, hexVal h2, hexVal h3, hexVal h4 with
              | some a, some b2, some c2, some d2 =>
                some (utf8Encode (((a * 16 + b2) * 16 + c2) * 16 + d2), rest3)
              | _, _, _, _ => none
            | _ => none
          else none
        match esc with
        | none => none
        | some (bs, rest3) =>
          (parseStringBody fuel rest3).map (fun p => (bs ++ p.1, p.2))
    else if b < 32 then none
    else (parseStringBody fuel rest).map (fun p => (b :: p.1, p.2))

/-- Longest leading run of decimal digit bytes. -/
def parseDigits : Bytes → Bytes × Bytes
  | [] => ([], [])
  | b :: rest =>
    if 48 ≤ b ∧ b ≤ 57 then
      let p := parseDigits rest
      (b :: p.1, p.2)
    else ([], b :: rest)

/-- Optional exponent part of a JSON number. -/
def parseExpPart (acc : Bytes) (s : Bytes) : Option (Bytes × Bytes) :=
  match s with
  | b :: r =>
    if b = 101 ∨ b = 69 then
      match r with
      | c :: r2 =>
        if c = 43 ∨ c = 45 then
          let p := parseDigits r2
          if p.1 = [] then none else some (acc ++ b :: c :: p.1, p.2)
        else
          let p := parseDigits r
          if p.1 = [] then none else some (acc ++ b :: p.1, p.2)
      | [] => none
    else some (acc, s)
  | [] => some (acc, s)

/-- Optional fraction part (then exponent) of a JSON number. -/
def parseFracPart (acc : Bytes) (s : Bytes) : Option (Bytes × Bytes) :=
  match s with
  | 46 :: r =>
    let p := parseDigits r
    if p.1 = [] then none else parseExpPart (acc ++ 46 :: p.1) p.2
  | _ => parseExpPart acc s

/-- A strict JSON numeral (raw bytes kept). -/
def parseNumber (s : Bytes) : Option (Bytes × Bytes) :=
  let signed : Bytes × Bytes :=
    match s with
    | 45 :: r => ([45], r)
    | _ => ([], s)
  match signed.2 with
  | 48 :: r => parseFracPart (signed.1 ++ [48]) r
  | b :: r =>
    if 49 ≤ b ∧ b ≤ 57 then
      let p := parseDigits r
      parseFracPart (signed.1 ++ b :: p.1) p.2
    else none
  | [] => none

mutual

/-- A JSON value with leading whitespace allowed. -/
def parseVal : Nat → Bytes → Option (JVal × Bytes)
  | 0, _ => none
  | fuel + 1, s =>
    match skipWsJ s with
    | [] => none
    | b :: r =>
      if b = 34 then
        (parseStringBody (r.length + 1) r).map (fun p => (JVal.jstr p.1, p.2))
      else if b = 123 then
        match skipWsJ r with
        | 125 :: r2 => some (JVal.jobj [], r2)
        | r2 => (parseFields fuel r2).map (fun p => (JVal.jobj p.1, p.2))
      else if b = 91 then
        match skipWsJ r with
        | 93 :: r2 => some (JVal.jarr [], r2)
        | r2 => (parseElems fuel r2).map (fun p => (JVal.jarr p.1, p.2))
      else if b = 116 then
        match r with
        | 114 :: 117 :: 101 :: r2 => some (JVal.jbool true, r2)
        | _ => none
      else if b = 102 then
        match r with
        | 97 :: 108 :: 115 :: 101 :: r2 => some (JVal.jbool false, r2)
        | _ => none
      else if b = 110 then
        match r with
        | 117 :: 108 :: 108 :: r2 => some (JVal.jnull, r2)
        | _ => none
      else (parseNumber (b :: r)).map (fun p => (JVal.jnum p.1, p.2))

/-- Comma-separated array elements up to the closing bracket. -/
def parseElems : Nat → Bytes → Option (List JVal × Bytes)
  | 0, _ => none
  | fuel + 1, s =>
    match parseVal fuel s with
    | none => none
    | some (v, r) =>
      match skipWsJ r with
      | 44 :: r2 => (parseElems fuel r2).map (fun p => (v :: p.1, p.2))
      | 93 :: r2 => some ([v], r2)
      | _ => none

/-- Comma-separated `"key": value` fields up to the closing brace; the
input starts at the first key with whitespace already skipped. -/
def parseFields : Nat → Bytes → Option (List (Bytes × JVal) × Bytes)
  | 0, _ => none
  | fuel + 1, s =>
    match s with
    | 34 :: r =>
      match parseStringBody (r.length + 1) r with
      | none => none
      | some (k, r2) =>
        match skipWsJ r2 with
        | 58 :: r3 =>
          match parseVal fuel r3 with
          | none => none
          | some (v, r4) =>
            match skipWsJ r4 with
            | 44 :: r5 => (parseFields fuel (skipWsJ r5)).map (fun p => ((k, v) :: p.1, p.2))
            | 125 :: r5 => some ([(k, v)], r5)
            | _ => none
        | _ => none
    | _ => none

end

/-- Model of `JSON.parse`: the whole input must be consumed. -/
def parseJson (s : Bytes) : Option JVal :=
  match parseVal (s.length + 1) s with
  | some (v, rest) => if skipWsJ rest = [] then some v else none
  | none => none

/-- Object field access; duplicate keys resolve to the last occurrence. -/
def objField (fs : List (Bytes × JVal)) (key : Bytes) : Option JVal :=
  match fs.reverse.find? (fun kv => kv.1 = key) with
  | some kv => some kv.2
  | none => none

/-- The navigation `parsed.choices?.[0]?.delta?.content`. -/
def getContent (v : JVal) : Option JVal :=
  match v with
  | JVal.jobj fs =>
    match objField fs (strBytes "choices") with
    | some (JVal.jarr (c0 :: _)) =>
      match c0 with
      | JVal.jobj fs2 =>
        match objField fs2 (strBytes "delta") with
        | some (JVal.jobj fs3) => objField fs3 (strBytes "content")
        | _ => none
      | _ => none
    | _ => none
  | _ => none

/-- `const content = parsed.choices?.[0]?.delta?.content as string | undefined;
if (content) ...` — the emission guard: a present, non-empty string content.
(The source casts the field to `string`; a non-string value in that position
is outside the gateway's contract and is not emitted here.) -/
def extractContent (v : JVal) : Option Bytes :=
  match getContent v with
  | some (JVal.jstr s) => if s = [] then none else some s
  | _ => none

/-! ### The SSE stream decoder (`streamChat`, read loop and final flush)

The source keeps a single growable `textBuffer` string and repeatedly
extracts the text before the first `"\n"`.  Here the buffer is decomposed
once into its complete lines plus the trailing newline-free leftover
(`splitLines`), and the read loop's inner `while` walks the lines
(`goLines`); `joinL lines leftover` reconstructs the buffer bytes, so the
push-back and `[DONE]` branches can return the exact buffer the source
leaves behind. -/

/-- Decompose a buffer into its complete lines (text before each `"\n"`)
and the newline-free leftover after the last `"\n"`. -/
def splitLines : Bytes → List Bytes × Bytes
  | [] => ([], [])
  | b :: rest =>
    let p := splitLines rest
    if b = 10 then ([] :: p.1, p.2)
    else
      match p.1 with
      | [] => ([], b :: p.2)
      | l :: ls => ((b :: l) :: ls, p.2)

/-- Rebuild buffer bytes from lines and leftover. -/
def joinL (ls : List Bytes) (t : Bytes) : Bytes :=
  ls.foldr (fun l acc => l ++ 10 :: acc) t

/-- `if (line.endsWith("\r")) line = line.slice(0, -1);` -/
def stripCR (l : Bytes) : Bytes :=
  if l.getLast? = some 13 then l.dropLast else l

/-- The event-data line marker `"data: "`. -/
def dataPrefix : Bytes := strBytes "data: "

/-- The stream-termination sentinel `"[DONE]"`. -/
def doneBytes : Bytes := strBytes "[DONE]"

/-- The inner `while ((newlineIndex = textBuffer.indexOf("\n")) !== -1)`
loop of the read phase, walking the extracted lines.  Returns the emitted
delta texts (the `onDelta` arguments, in order), the buffer left behind,
and whether `streamDone` was set by the `[DONE]` sentinel. -/
def goLines : List Bytes → Bytes → List Bytes × Bytes × Bool
  | [], t => ([], t, false)
  | rawLine :: ls, t =>
    let line := stripCR rawLine
    if line.head? = some 58 ∨ trimBytes line = [] then goLines ls t
    else if ¬ (dataPrefix.isPrefixOf line) then goLines ls t
    else
      let jsonStr := trimBytes (line.drop 6)
      if jsonStr = doneBytes then ([], joinL ls t, true)
      else
        match parseJson jsonStr with
        | some v =>
          match extractContent v with
          | some c =>
            let p := goLines ls t
            (c :: p.1, p.2.1, p.2.2)
          | none => goLines ls t
        | none => ([], line ++ 10 :: joinL ls t, false)

/-- One pass of line extraction over a buffer. -/
def processLines (b : Bytes) : List Bytes × Bytes × Bool :=
  let p := splitLines b
  goLines p.1 p.2

/-- Decoder state across reads: `textBuffer` and `streamDone`. -/
structure DecState where
  textBuffer : Bytes
  streamDone : Bool
deriving DecidableEq

/-- One iteration of `while (!streamDone) { ... reader.read() ... }`: when
`streamDone` is already set the chunk is never read; otherwise the chunk is
appended to the buffer and complete lines are processed. -/
def feed (st : DecState) (chunk : Bytes) : DecState × List Bytes :=
  if st.streamDone then (st, [])
  else
    let p := processLines (st.textBuffer ++ chunk)
    (⟨p.2.1, p.2.2⟩, p.1)

/-- The whole read loop over the stream's chunk sequence. -/
def runLoop (st : DecState) : List Bytes → DecState × List Bytes
  | [] => (st, [])
  | c :: cs =>
    let p := feed st c
    let q := runLoop p.1 cs
    (q.1, p.2 ++ q.2)

/-- `textBuffer.split("\n")` (JavaScript semantics: a trailing newline
yields a final empty fragment). -/
def splitNL (b : Bytes) : List Bytes :=
  (splitLines b).1 ++ [(splitLines b).2]

/-- One iteration of the final-flush `for` loop; note the flush path does
not strip a trailing `"\r"` from the raw line (the source only trims the
payload), unlike the read loop. -/
def flushLine (raw : Bytes) : List Bytes :=
  if raw = [] then []
  else if raw.head? = some 58 ∨ trimBytes raw = [] then []
  else if ¬ (dataPrefix.isPrefixOf raw) then []
  else
    let jsonStr := trimBytes (raw.drop 6)
    if jsonStr = doneBytes then []
    else
      match parseJson jsonStr with
      | some v =>
        match extractContent v with
        | some c => [c]
        | none => []
      | none => []

/-- `if (textBuffer.trim()) { for (let raw of textBuffer.split("\n")) ... }` -/
def flushBuf (b : Bytes) : List Bytes :=
  if trimBytes b = [] then []
  else (splitNL b).foldr (fun raw acc => flushLine raw ++ acc) []

/-- The full decoder: all `onDelta` arguments produced by `streamChat`'s
read loop followed by its final flush; `onDone()` is invoked unconditionally
afterwards (source line 164), so completion needs no separate flag here. -/
def decodeStream (chunks : List Bytes) : List Bytes :=
  let p := runLoop ⟨[], false⟩ chunks
  p.2 ++ flushBuf p.1.textBuffer

/-- Concatenation of a list of byte strings. -/
def joinBytes (l : List Bytes) : Bytes := l.foldr (fun a acc => a ++ acc) []

/-! ### Well-formed delta streams (the input class of claim C1) -/

/-- One well-formed SSE delta line body: `"data: " ++ j ++ "\n"` where the
payload `j` stays on one line, parses as JSON, and carries a non-empty
`choices[0].delta.content` string `c`. -/
def wfDelta (j c : Bytes) : Prop :=
  10 ∉ j ∧ 13 ∉ j ∧ (parseJson (trimBytes j)).bind extractContent = some c

instance (j c : Bytes) : Decidable (wfDelta j c) := by
  unfold wfDelta; infer_instance

/-- The byte sequence of the delta lines with payloads `js` followed by the
terminating `data: [DONE]` line, each line ending in `"\n"`. -/
def streamBytes : List Bytes → Bytes
  | [] => (dataPrefix ++ doneBytes) ++ 10 :: []
  | j :: js => (dataPrefix ++ j) ++ 10 :: streamBytes js

/-! ### Transcript and session state (`useChat` / `useConversations`)

Transcript messages and the state transformers applied through
`setMessages`.  Message contents and ids are Lean strings here; the session
layer never re-parses them, so the byte-level detail of the decoder is not
needed at this level. -/

inductive Role where
  | user : Role
  | assistant : Role
deriving DecidableEq

structure Message where
  id : String
  role : Role
  content : String
deriving DecidableEq

/-- The fixed welcome message (`INITIAL_MESSAGE` in `useConversations`). -/
def INITIAL_MESSAGE : Message :=
  { id := "welcome"
    role := Role.assistant
    content := "Hello! I'm your EduVerse USA study assistant. I can help you with U.S. university admissions, Statement of Purpose guidance, scholarship opportunities, and test preparation for GRE, TOEFL, and IELTS.\n\nHow can I assist you today?" }

/-- `useState<Message[]>([INITIAL_MESSAGE])` — the fresh transcript. -/
def freshMessages : List Message := [INITIAL_MESSAGE]

/-- `setMessages([INITIAL_MESSAGE])` — the reset performed by
`startNewChat`, `clearAllHistory`, deleting the active conversation, and
the no-user / no-active-conversation effect branch. -/
def resetMessages : List Message := [INITIAL_MESSAGE]

/-- The `loadMessages` effect body: `data.length > 0` yields
`[INITIAL_MESSAGE, ...loadedMessages]`, otherwise `[INITIAL_MESSAGE]`. -/
def loadMessages (loaded : List Message) : List Message :=
  if loaded = [] then [INITIAL_MESSAGE] else INITIAL_MESSAGE :: loaded

/-- Replace the content of the last element, leaving id and role intact —
the source writes this as `prev.map((m, i) => i === prev.length - 1 ?
{ ...m, content: assistantContent } : m)`, a positional map that only
rewrites the final index. -/
def setLastContent (c : String) : List Message → List Message
  | [] => []
  | [m] => [{ m with content := c }]
  | m :: rest => m :: setLastContent c rest

/-- The `updateAssistant` delta handler of `sendMessage`.  It closes over
the mutable accumulator `assistantContent` (threaded here explicitly):
appends the chunk, then either rewrites the trailing streaming placeholder
or appends a fresh `{ id: "streaming", role: "assistant" }` message. -/
def updateAssistant (assistantContent chunk : String) (prev : List Message) :
    String × List Message :=
  let newAc := assistantContent ++ chunk
  let msgs :=
    match prev.getLast? with
    | some last =>
      if last.role = Role.assistant ∧ last.id = "streaming" then
        setLastContent newAc prev
      else prev ++ [{ id := "streaming", role := Role.assistant, content := newAc }]
    | none => prev ++ [{ id := "streaming", role := Role.assistant, content := newAc }]
  (newAc, msgs)

/-- The `onDone` finalisation: `prev.map(m => m.id === "streaming" ?
{ ...m, id: Date.now().toString() } : m)`; `durableId` stands for the
`Date.now().toString()` value. -/
def finalizeMessages (durableId : String) (l : List Message) : List Message :=
  l.map (fun m => if m.id = "streaming" then { m with id := durableId } else m)

/-- Sequential application of a list of deltas through `updateAssistant`,
threading the accumulator — the strict FIFO delivery of `onDelta` calls. -/
def applyDeltas (ac : String) (msgs : List Message) : List String → String × List Message
  | [] => (ac, msgs)
  | d :: ds =>
    let p := updateAssistant ac d msgs
    applyDeltas p.1 p.2 ds

/-! ### The network call and `sendMessage` -/

/-- JavaScript `String.prototype.trim` whitespace, at the character level
(ASCII part; the Unicode space classes do not occur in chat input handled
by any statement below). -/
def isWsChar (c : Char) : Bool :=
  c = ' ' || c = '\t' || c = '\n' || c = '\x0b' || c = '\x0c' || c = '\r'

/-- Model of `input.trim()` (kernel-reducible, unlike `String.trim`). -/
def trimStr (s : String) : String :=
  ⟨List.rdropWhile isWsChar (s.data.dropWhile isWsChar)⟩

/-- The `fetch` outcome as `streamChat` observes it: the `ok` flag and
`status` of the response, the optional `errorData.error` field of a JSON
error body, and — for a streaming success — the delta texts the decoder
will emit (`none` models a missing response body). -/
structure NetResponse where
  ok : Bool
  status : Nat
  errorBody : Option String
  body : Option (List String)

/-- The HTTP-error mapping and body check of `streamChat` (source lines
94–105): `Except.error` is a thrown `Error`'s message, `Except.ok` the
delta sequence delivered to `onDelta` before `onDone` fires. -/
def streamChatS (r : NetResponse) : Except String (List String) :=
  if ¬ r.ok then
    if r.status = 429 then Except.error "Rate limit exceeded. Please wait a moment and try again."
    else if r.status = 402 then Except.error "AI usage limit reached. Please add credits to continue."
    else Except.error (r.errorBody.getD "Failed to connect to AI")
  else
    match r.body with
    | none => Except.error "No response body"
    | some ds => Except.ok ds

/-- Result of one `sendMessage(input)` call: the transcript, the
`isLoading` flag, the `toast.error` notifications raised, the
`saveMessage(role, content)` calls issued (in order), and the
`chatHistory` payload sent to the network (empty when no request was
issued). -/
structure SendResult where
  messages : List Message
  isLoading : Bool
  toasts : List String
  saves : List (Role × String)
  history : List (Role × String)

/-- The `sendMessage` flow of `useChat` as a function of the prior
transcript, the in-flight flag, and the network outcome.  `canPersist`
stands for `user && convId` (a logged-in user with a conversation record);
`userId` and `durableId` stand for the two `Date.now().toString()` draws. -/
def sendMessageModel (msgs : List Message) (isLoading : Bool) (canPersist : Bool)
    (input : String) (userId durableId : String) (r : NetResponse) : SendResult :=
  if trimStr input = "" ∨ isLoading then
    { messages := msgs, isLoading := isLoading, toasts := [], saves := [], history := [] }
  else
    let userMsg : Message := { id := userId, role := Role.user, content := trimStr input }
    let msgs1 := msgs ++ [userMsg]
    let history := msgs1.map (fun m => (m.role, m.content))
    let userSaves := if canPersist then [(Role.user, trimStr input)] else []
    match streamChatS r with
    | Except.error e =>
      { messages := msgs1, isLoading := false, toasts := [e], saves := userSaves
        history := history }
    | Except.ok ds =>
      let p := applyDeltas "" msgs1 ds
      { messages := finalizeMessages durableId p.2
        isLoading := false
        toasts := []
        saves := userSaves ++ (if canPersist ∧ p.1 ≠ "" then [(Role.assistant, p.1)] else [])
        history := history }

/-- Number of messages with a given role. -/
def countRole (ro : Role) (l : List Message) : Nat :=
  l.countP (fun m => m.role = ro)

/-- Number of streaming placeholders (`id = "streaming"`). -/
def countStreaming (l : List Message) : Nat :=
  l.countP (fun m => m.id = "streaming")

/-- The strengthened streaming invariant: any message bearing the
placeholder id is the final message of the transcript and has role
assistant. -/
def streamingTailInv (l : List Message) : Prop :=
  (∀ m ∈ l.dropLast, m.id ≠ "streaming") ∧
  (∀ m ∈ l.getLast?, m.id = "streaming" → m.role = Role.assistant)

instance (l : List Message) : Decidable (streamingTailInv l) := by
  unfold streamingTailInv; infer_instance

/-! ### Concrete instances used by the claim theorems and witnesses -/

/-- Two delta lines (the first content holds a two-byte character and an
escaped quote) with chunk boundaries placed inside the multi-byte
character (index 41), inside the `\"` escape (index 43), and inside the
`[DONE]` token (index 108). -/
def c1Pairs : List (Bytes × Bytes) :=
  [(strBytes "\x7b\"choices\":[\x7b\"delta\":\x7b\"content\":\"Hé\\\"x\"\x7d\x7d]\x7d", strBytes "Hé\"x"),
   (strBytes "\x7b\"choices\":[\x7b\"delta\":\x7b\"content\":\", ok\"\x7d\x7d]\x7d", strBytes ", ok")]

def c1Stream : Bytes := streamBytes (c1Pairs.map Prod.fst)

def c1Chunks : List Bytes :=
  [c1Stream.take 41, (c1Stream.drop 41).take 2, (c1Stream.drop 43).take 65, c1Stream.drop 108]

/-- A single chunk holding a `data: [DONE]` line followed by a further
delta line: the read loop stops at the sentinel with the second line still
in the buffer. -/
def c3Chunk : Bytes :=
  strBytes "data: [DONE]\ndata: \x7b\"choices\":[\x7b\"delta\":\x7b\"content\":\"X\"\x7d\x7d]\x7d\n"

def c4Line : Bytes := strBytes "data: \x7b\"choices\":[\x7b\"delta"

def c9Payload : Bytes := strBytes "\x7b\"choices\":[\x7b\"delta\":\x7b\x7d\x7d]\x7d"

def c9Value : JVal :=
  JVal.jobj [(strBytes "choices", JVal.jarr [JVal.jobj [(strBytes "delta", JVal.jobj [])]])]

/-- Concatenation of the streamed delta texts (the accumulated
`assistantContent`). -/
def concatStrs (l : List String) : String := l.foldr (fun a acc => a ++ acc) ""

def c6Last : Message := ⟨"streaming", Role.assistant, "Hello"⟩

def c6List : List Message := [⟨"5", Role.user, "hi"⟩, c6Last]

def c8List : List Message := [⟨"w", Role.user, "q"⟩, ⟨"streaming", Role.assistant, "a"⟩]

/-- The transcript of the newly selected conversation, as installed by the
`loadMessages` effect after a mid-stream conversation switch. -/
def c2Loaded : List Message :=
  [⟨"m1", Role.user, "hi"⟩, ⟨"m2", Role.assistant, "hello"⟩]

/-! ### Decoder lemmas -/

theorem splitLines_no_nl {b : Bytes} (h : 10 ∉ b) : splitLines b = ([], b) := by
  induction b with
  | nil => rfl
  | cons x xs ih =>
    have hx : x ≠ 10 := fun e => h (e ▸ List.mem_cons_self x xs)
    have hxs : 10 ∉ xs := fun m => h (List.mem_cons_of_mem _ m)
    simp [splitLines, ih hxs, hx]

theorem splitLines_cons_line {l : Bytes} (r : Bytes) (h : 10 ∉ l) :
    splitLines (l ++ 10 :: r) = (l :: (splitLines r).1, (splitLines r).2) := by
  induction l with
  | nil => simp [splitLines]
  | cons x xs ih =>
    have hx : x ≠ 10 := fun e => h (e ▸ List.mem_cons_self x xs)
    have hxs : 10 ∉ xs := fun m => h (List.mem_cons_of_mem _ m)
    simp [splitLines, ih hxs, hx]

theorem joinL_splitLines (b : Bytes) : joinL (splitLines b).1 (splitLines b).2 = b := by
  induction b with
  | nil => rfl
  | cons x xs ih =>
    by_cases hx : x = 10
    · subst hx
      simpa [splitLines, joinL] using ih
    · rcases hp : (splitLines xs).1 with _ | ⟨l, ls⟩
      · have : (splitLines xs).2 = xs := by
          have := ih
          rw [hp] at this
          simpa [joinL] using this
        simp [splitLines, hx, hp, joinL, this]
      · have : (x :: l) ++ 10 :: joinL ls (splitLines xs).2 = x :: xs := by
          have := ih
          rw [hp] at this
          simp only [joinL, List.foldr_cons] at this
          simpa [joinL] using congrArg (x :: ·) this
        simpa [splitLines, hx, hp, joinL] using this

theorem processLines_no_nl {b : Bytes} (h : 10 ∉ b) : processLines b = ([], b, false) := by
  simp [processLines, splitLines_no_nl h, goLines]

theorem trimBytes_cons_ne_nil {a : Nat} (l : Bytes) (h : isTrimWs a = false) :
    trimBytes (a :: l) ≠ [] := by
  unfold trimBytes
  rw [List.dropWhile_cons, h]
  simp only [Bool.false_eq_true, if_false]
  intro heq
  have := List.rdropWhile_eq_nil_iff.mp heq a (List.mem_cons_self a l)
  rw [h] at this
  cases this

theorem stripCR_of_no_cr {l : Bytes} (h : 13 ∉ l) : stripCR l = l := by
  unfold stripCR
  split
  · next heq =>
    exfalso
    obtain ⟨ys, rfl⟩ := List.getLast?_eq_some_iff.mp heq
    exact h (by simp)
  · rfl

theorem parseJson_doneBytes : parseJson doneBytes = none := rfl

theorem dataPrefix_eq : dataPrefix = [100, 97, 116, 97, 58, 32] := by decide

theorem goLines_data_cons {j : Bytes} (v : JVal) (ls : List Bytes) (t : Bytes)
    (h13 : 13 ∉ j) (hp : parseJson (trimBytes j) = some v) :
    goLines ((dataPrefix ++ j) :: ls) t =
      (match extractContent v with
       | some c => ((c :: (goLines ls t).1, (goLines ls t).2.1, (goLines ls t).2.2) :
           List Bytes × Bytes × Bool)
       | none => goLines ls t) := by
  have hline : stripCR (dataPrefix ++ j) = dataPrefix ++ j := by
    apply stripCR_of_no_cr
    intro hm
    rcases List.mem_append.mp hm with h1 | h2
    · rw [dataPrefix_eq] at h1; revert h1; decide
    · exact h13 h2
  have hhead : (dataPrefix ++ j).head? = some 100 := by
    rw [dataPrefix_eq]; rfl
  have htrim : trimBytes (dataPrefix ++ j) ≠ [] := by
    rw [dataPrefix_eq]
    exact trimBytes_cons_ne_nil _ (by decide)
  have hpre : dataPrefix.isPrefixOf (dataPrefix ++ j) = true :=
    List.isPrefixOf_iff_prefix.mpr (List.prefix_append _ _)
  have hdrop : (dataPrefix ++ j).drop 6 = j := by
    have h6 : dataPrefix.length = 6 := by decide
    rw [← h6]
    exact List.drop_left _ _
  have hdone : ¬ (trimBytes j = doneBytes) := by
    intro he
    rw [he, parseJson_doneBytes] at hp
    cases hp
  simp only [goLines, hline, hhead, hdrop]
  rw [if_neg (by simp [htrim]), if_neg (by simp [hpre]), if_neg hdone, hp]

theorem processLines_wf_step {j c : Bytes} (rest : Bytes) (hwf : wfDelta j c) :
    processLines ((dataPrefix ++ j) ++ 10 :: rest) =
      (c :: (processLines rest).1, (processLines rest).2) := by
  obtain ⟨h10, h13, hbind⟩ := hwf
  obtain ⟨v, hp, hev⟩ := Option.bind_eq_some.mp hbind
  have h10' : (10 : Nat) ∉ dataPrefix ++ j := by
    intro hm
    rcases List.mem_append.mp hm with h1 | h2
    · rw [dataPrefix_eq] at h1; revert h1; decide
    · exact h10 h2
  unfold processLines
  rw [splitLines_cons_line _ h10', goLines_data_cons v _ _ h13 hp, hev]

theorem processLines_skip_line {j : Bytes} (v : JVal) (rest : Bytes)
    (h10 : 10 ∉ j) (h13 : 13 ∉ j) (hp : parseJson (trimBytes j) = some v)
    (hev : extractContent v = none) :
    processLines ((dataPrefix ++ j) ++ 10 :: rest) = processLines rest := by
  have h10' : (10 : Nat) ∉ dataPrefix ++ j := by
    intro hm
    rcases List.mem_append.mp hm with h1 | h2
    · rw [dataPrefix_eq] at h1; revert h1; decide
    · exact h10 h2
  unfold processLines
  rw [splitLines_cons_line _ h10', goLines_data_cons v _ _ h13 hp, hev]

theorem processLines_doneLine :
    processLines ((dataPrefix ++ doneBytes) ++ 10 :: []) = ([], [], true) := by decide

theorem split_at_line {b r l s : Bytes} (h : b ++ r = l ++ 10 :: s) (hl : 10 ∉ l) :
    (10 ∉ b) ∨ ∃ b', b = l ++ 10 :: b' ∧ b' ++ r = s := by
  induction l generalizing b with
  | nil =>
    cases b with
    | nil => exact Or.inl (by simp)
    | cons x b' =>
      simp only [List.cons_append, List.nil_append] at h
      obtain ⟨hx, hb⟩ := List.cons_eq_cons.mp h
      exact Or.inr ⟨b', by rw [hx]; rfl, hb⟩
  | cons y l' ih =>
    have hy : y ≠ 10 := fun e => hl (e ▸ List.mem_cons_self y l')
    have hl' : 10 ∉ l' := fun m => hl (List.mem_cons_of_mem _ m)
    cases b with
    | nil => exact Or.inl (by simp)
    | cons x b' =>
      simp only [List.cons_append] at h
      obtain ⟨hx, hb⟩ := List.cons_eq_cons.mp h
      rcases ih hb hl' with h1 | ⟨b'', hb1, hb2⟩
      · left
        intro hm
        rcases List.mem_cons.mp hm with hm1 | hm2
        · exact hy (hx ▸ hm1.symm)
        · exact h1 hm2
      · exact Or.inr ⟨b'', by rw [hx, hb1]; rfl, hb2⟩

theorem processLines_wf_prefix (pairs : List (Bytes × Bytes))
    (hwf : ∀ p ∈ pairs, wfDelta p.1 p.2) :
    ∀ b r, b ++ r = streamBytes (pairs.map Prod.fst) →
    ∃ pre post, pairs = pre ++ post ∧
      (processLines b).1 = pre.map Prod.snd ∧
      (((processLines b).2.2 = true ∧ post = [] ∧ r = [] ∧ (processLines b).2.1 = []) ∨
       ((processLines b).2.2 = false ∧ 10 ∉ (processLines b).2.1 ∧
        (processLines b).2.1 ++ r = streamBytes (post.map Prod.fst))) := by
  induction pairs with
  | nil =>
    intro b r h
    have hl : (10 : Nat) ∉ dataPrefix ++ doneBytes := by decide
    rcases split_at_line h hl with hb | ⟨b', hb, hbr⟩
    · refine ⟨[], [], rfl, ?_, Or.inr ⟨?_, ?_, ?_⟩⟩ <;>
        simp [processLines_no_nl hb, hb, h]
    · have hb' : b' = [] ∧ r = [] := by
        have := hbr
        cases b' with
        | nil => exact ⟨rfl, this⟩
        | cons z zs => cases this
      obtain ⟨hb'1, hr⟩ := hb'
      subst hb'1
      refine ⟨[], [], rfl, ?_, Or.inl ⟨?_, rfl, hr, ?_⟩⟩ <;>
        rw [hb] <;> decide
  | cons p ps ih =>
    intro b r h
    obtain ⟨j, c⟩ := p
    have hwfp : wfDelta j c := hwf (j, c) (List.mem_cons_self _ _)
    have hwfs : ∀ q ∈ ps, wfDelta q.1 q.2 := fun q hq => hwf q (List.mem_cons_of_mem _ hq)
    have hl : (10 : Nat) ∉ dataPrefix ++ j := by
      intro hm
      rcases List.mem_append.mp hm with h1 | h2
      · rw [dataPrefix_eq] at h1; revert h1; decide
      · exact hwfp.1 h2
    have hshape : b ++ r = (dataPrefix ++ j) ++ 10 :: streamBytes (ps.map Prod.fst) := h
    rcases split_at_line hshape hl with hb | ⟨b', hb, hbr⟩
    · refine ⟨[], (j, c) :: ps, rfl, ?_, Or.inr ⟨?_, ?_, ?_⟩⟩ <;>
        simp [processLines_no_nl hb, hb, h]
    · obtain ⟨pre, post, hsplit, hd, hrest⟩ := ih hwfs b' r hbr
      refine ⟨(j, c) :: pre, post, by rw [hsplit]; rfl, ?_, ?_⟩
      · rw [hb, processLines_wf_step _ hwfp, hd]; rfl
      · rw [hb, processLines_wf_step _ hwfp]
        exact hrest

theorem runLoop_after_done {st : DecState} (h : st.streamDone = true) :
    ∀ cs, runLoop st cs = (st, []) := by
  intro cs
  induction cs with
  | nil => rfl
  | cons c cs ih => simp [runLoop, feed, h, ih]

theorem nl_mem_streamBytes (js : List Bytes) : (10 : Nat) ∈ streamBytes js := by
  cases js with
  | nil => decide
  | cons j js => simp [streamBytes]

theorem runLoop_wf (chunks : List Bytes) :
    ∀ (pairs : List (Bytes × Bytes)) (t : Bytes),
      (∀ p ∈ pairs, wfDelta p.1 p.2) → 10 ∉ t →
      t ++ joinBytes chunks = streamBytes (pairs.map Prod.fst) →
      runLoop ⟨t, false⟩ chunks = (⟨[], true⟩, pairs.map Prod.snd) := by
  induction chunks with
  | nil =>
    intro pairs t hwf ht h
    exfalso
    simp only [joinBytes, List.foldr_nil, List.append_nil] at h
    exact ht (h ▸ nl_mem_streamBytes _)
  | cons c cs ih =>
    intro pairs t hwf ht h
    have hb : (t ++ c) ++ joinBytes cs = streamBytes (pairs.map Prod.fst) := by
      rw [← h]; simp [joinBytes]
    obtain ⟨pre, post, hsplit, hd, hrest⟩ :=
      processLines_wf_prefix pairs hwf (t ++ c) (joinBytes cs) hb
    have hfeed : feed ⟨t, false⟩ c =
        (⟨(processLines (t ++ c)).2.1, (processLines (t ++ c)).2.2⟩,
         (processLines (t ++ c)).1) := rfl
    rcases hrest with ⟨hdn, hpost, _, hbuf⟩ | ⟨hdn, hnnl, hjoin⟩
    · have : runLoop ⟨t, false⟩ (c :: cs) =
          ((⟨[], true⟩ : DecState), (processLines (t ++ c)).1 ++ []) := by
        simp only [runLoop, hfeed, hbuf, hdn]
        rw [runLoop_after_done rfl cs]
      rw [this, hd, hsplit, hpost]
      simp
    · have hwfpost : ∀ p ∈ post, wfDelta p.1 p.2 := fun p hp =>
        hwf p (hsplit ▸ List.mem_append_right _ hp)
      have hrec := ih post (processLines (t ++ c)).2.1 hwfpost hnnl hjoin
      have : runLoop ⟨t, false⟩ (c :: cs) =
          ((⟨[], true⟩ : DecState),
           (processLines (t ++ c)).1 ++ post.map Prod.snd) := by
        simp only [runLoop, hfeed, hdn]
        rw [hrec]
      rw [this, hd, hsplit]
      simp

theorem decodeStream_wf (pairs : List (Bytes × Bytes)) (chunks : List Bytes)
    (hwf : ∀ p ∈ pairs, wfDelta p.1 p.2)
    (hjoin : joinBytes chunks = streamBytes (pairs.map Prod.fst)) :
    decodeStream chunks = pairs.map Prod.snd := by
  have h := runLoop_wf chunks pairs [] hwf (by simp) (by simpa using hjoin)
  unfold decodeStream
  rw [h]
  simp [flushBuf, trimBytes]

/-! ### Claim theorems: stream decoder -/

/-- C1: for every byte sequence consisting of well-formed SSE delta lines
(`data: ` + JSON object carrying `choices[0].delta.content`) terminated by
a `data: [DONE]` line, and for every segmentation of that byte sequence
into successive chunks fed to the read loop, the concatenation of the texts
passed to `onDelta` equals the concatenation of the lines' delta-content
fields — independent of where the chunk boundaries fall (inside a
multi-byte character, inside a JSON string escape, or inside the `[DONE]`
token). -/
theorem c1_chunking_invariance (pairs : List (Bytes × Bytes)) (chunks : List Bytes)
    (hwf : ∀ p ∈ pairs, wfDelta p.1 p.2)
    (hjoin : joinBytes chunks = streamBytes (pairs.map Prod.fst)) :
    joinBytes (decodeStream chunks) = joinBytes (pairs.map Prod.snd) := by
  rw [decodeStream_wf pairs chunks hwf hjoin]

theorem c1_chunking_invariance_witness :
    ((∀ p ∈ c1Pairs, wfDelta p.1 p.2) ∧
      joinBytes c1Chunks = streamBytes (c1Pairs.map Prod.fst)) ∧
    joinBytes (decodeStream c1Chunks) = joinBytes (c1Pairs.map Prod.snd) :=
  ⟨⟨by decide, by decide⟩, c1_chunking_invariance c1Pairs c1Chunks (by decide) (by decide)⟩

/-- C3 counterexample: the read loop processes the sentinel (it emits no
delta and sets `streamDone`), yet the delta line that was already sitting
in the buffer behind the sentinel IS delivered to `onDelta` — by the
unconditional final flush (source lines 147–162), which runs even after
`[DONE]` and skips only further `[DONE]` payloads.  The claim that such
lines are never delivered is therefore false. -/
theorem c3_counterexample :
    (runLoop ⟨[], false⟩ [c3Chunk]).2 = [] ∧
    (runLoop ⟨[], false⟩ [c3Chunk]).1.streamDone = true ∧
    decodeStream [c3Chunk] = [strBytes "X"] := by decide

/-- C3 amended: once the sentinel line has been processed, the read loop
itself emits no further delta events and never reads another chunk — the
decoder state (buffer included) is left untouched for any sequence of
remaining chunks.  (Lines already buffered when the sentinel is processed
are, however, still handed to the best-effort final flush and may be
delivered, as the counterexample shows.) -/
theorem c3_amended_read_loop_stops (st : DecState) (h : st.streamDone = true)
    (cs : List Bytes) : runLoop st cs = (st, []) :=
  runLoop_after_done h cs

theorem c3_amended_read_loop_stops_witness :
    (⟨strBytes "leftover", true⟩ : DecState).streamDone = true ∧
    runLoop ⟨strBytes "leftover", true⟩ [c3Chunk, strBytes "data: more\n"] =
      (⟨strBytes "leftover", true⟩, []) :=
  ⟨rfl, c3_amended_read_loop_stops _ rfl _⟩

theorem processLines_parse_failure (R rest : Bytes) (h10 : 10 ∉ R)
    (hpre : dataPrefix.isPrefixOf (stripCR R) = true)
    (hdone : trimBytes ((stripCR R).drop 6) ≠ doneBytes)
    (hfail : parseJson (trimBytes ((stripCR R).drop 6)) = none) :
    processLines (R ++ 10 :: rest) = ([], stripCR R ++ 10 :: rest, false) := by
  obtain ⟨tl, htl⟩ := List.isPrefixOf_iff_prefix.mp hpre
  have hhead : (stripCR R).head? = some 100 := by
    rw [← htl, dataPrefix_eq]; rfl
  have htrim : trimBytes (stripCR R) ≠ [] := by
    rw [← htl, dataPrefix_eq]
    exact trimBytes_cons_ne_nil _ (by decide)
  unfold processLines
  rw [splitLines_cons_line _ h10]
  simp only [goLines, hhead]
  rw [if_neg (by simp [htrim]), if_neg (by simp [hpre]), if_neg hdone, hfail,
    joinL_splitLines]

/-- C4: when JSON parsing of an extracted `data: ` line fails, the read
loop emits nothing from that point, pushes the (CR-stripped) line back onto
the front of the buffer together with its newline, and stops line
extraction for the current chunk (the bytes behind the line are left
unprocessed in the buffer); when the next chunk arrives, the very same line
is extracted and parsed again, so the line is never silently dropped while
the stream is still delivering bytes. -/
theorem c4_pushback_retry (R rest extra : Bytes) (h10 : 10 ∉ R)
    (hpre : dataPrefix.isPrefixOf (stripCR R) = true)
    (hdone : trimBytes ((stripCR R).drop 6) ≠ doneBytes)
    (hfail : parseJson (trimBytes ((stripCR R).drop 6)) = none)
    (hcr : stripCR (stripCR R) = stripCR R) :
    processLines (R ++ 10 :: rest) = ([], stripCR R ++ 10 :: rest, false) ∧
    feed ⟨stripCR R ++ 10 :: rest, false⟩ extra =
      (⟨stripCR R ++ 10 :: (rest ++ extra), false⟩, []) := by
  have h10' : 10 ∉ stripCR R := by
    unfold stripCR
    split
    · exact fun m => h10 (List.dropLast_subset _ m)
    · exact h10
  constructor
  · exact processLines_parse_failure R rest h10 hpre hdone hfail
  · have hre : (stripCR R ++ 10 :: rest) ++ extra = stripCR R ++ 10 :: (rest ++ extra) := by
      simp
    have := processLines_parse_failure (stripCR R) (rest ++ extra) h10'
      (by rw [hcr]; exact hpre) (by rw [hcr]; exact hdone) (by rw [hcr]; exact hfail)
    rw [hcr] at this
    simp only [feed, hre, this]
    rfl

theorem c4_pushback_retry_witness :
    ((10 ∉ c4Line) ∧ dataPrefix.isPrefixOf (stripCR c4Line) = true ∧
      trimBytes ((stripCR c4Line).drop 6) ≠ doneBytes ∧
      parseJson (trimBytes ((stripCR c4Line).drop 6)) = none ∧
      stripCR (stripCR c4Line) = stripCR c4Line) ∧
    processLines (c4Line ++ 10 :: []) = ([], stripCR c4Line ++ 10 :: [], false) ∧
    feed ⟨stripCR c4Line ++ 10 :: [], false⟩ (strBytes "x") =
      (⟨stripCR c4Line ++ 10 :: ([] ++ strBytes "x"), false⟩, []) :=
  ⟨⟨by decide, by decide, by decide, rfl, by decide⟩,
   c4_pushback_retry c4Line [] (strBytes "x") (by decide) (by decide) (by decide) rfl
     (by decide)⟩

/-- C9: the decoder swallows malformed or unexpected payloads rather than
raising: (a) a line that parses as JSON but carries no
`choices[0].delta.content` contributes zero delta events and processing
continues with the rest of the buffer; (b) a flush-phase line whose payload
still fails to parse produces no delta (the failure is caught and ignored);
`onDone()` is invoked unconditionally after the flush (source line 164), so
completion is still signalled. -/
theorem c9_malformed_payloads_swallowed :
    (∀ (j : Bytes) (v : JVal) (rest : Bytes), 10 ∉ j → 13 ∉ j →
        parseJson (trimBytes j) = some v → extractContent v = none →
        processLines ((dataPrefix ++ j) ++ 10 :: rest) = processLines rest) ∧
    (∀ g : Bytes, parseJson (trimBytes (g.drop 6)) = none → flushLine g = []) := by
  constructor
  · intro j v rest h10 h13 hp hev
    exact processLines_skip_line v rest h10 h13 hp hev
  · intro g hfail
    simp [flushLine, hfail]

theorem c9_malformed_payloads_swallowed_witness :
    ((10 ∉ c9Payload) ∧ (13 ∉ c9Payload) ∧
      parseJson (trimBytes c9Payload) = some c9Value ∧
      extractContent c9Value = none ∧
      parseJson (trimBytes ((strBytes "data: \x7b\"choi").drop 6)) = none) ∧
    processLines ((dataPrefix ++ c9Payload) ++ 10 :: []) = processLines [] ∧
    flushLine (strBytes "data: \x7b\"choi") = [] :=
  ⟨⟨by decide, by decide, rfl, rfl, rfl⟩,
   c9_malformed_payloads_swallowed.1 c9Payload c9Value [] (by decide) (by decide) rfl rfl,
   c9_malformed_payloads_swallowed.2 (strBytes "data: \x7b\"choi") rfl⟩

/-! ### Transcript lemmas -/

theorem setLastContent_concat (l : List Message) (m : Message) (c : String) :
    setLastContent c (l ++ [m]) = l ++ [{ m with content := c }] := by
  induction l with
  | nil => rfl
  | cons x xs ih =>
    cases xs with
    | nil => rfl
    | cons y ys =>
      show x :: setLastContent c (y :: ys ++ [m]) = x :: (y :: ys ++ [{ m with content := c }])
      rw [ih]

theorem applyDeltas_fst (ds : List String) :
    ∀ (ac : String) (msgs : List Message), (applyDeltas ac msgs ds).1 = ac ++ concatStrs ds := by
  induction ds with
  | nil => intro ac msgs; simp [applyDeltas, concatStrs]
  | cons d ds ih =>
    intro ac msgs
    show (applyDeltas (ac ++ d) (updateAssistant ac d msgs).2 ds).1 = _
    rw [ih]
    show (ac ++ d) ++ concatStrs ds = ac ++ (d ++ concatStrs ds)
    rw [String.append_assoc]

/-! ### Claim theorems: transcript reducer -/

/-- C6 counterexample: applying the empty delta is NOT a no-op for every
transcript state.  On the empty transcript (no streaming assistant message
present), `updateAssistant "" ""` appends a fresh streaming placeholder:
the transcript length changes from 0 to 1. -/
theorem c6_counterexample :
    (updateAssistant "" "" []).2 ≠ [] ∧ (updateAssistant "" "" []).2.length = 1 := by
  decide

/-- C6 amended: applying an empty delta is a no-op exactly in the state the
streaming flow maintains — when the last message is the streaming assistant
placeholder and its content equals the accumulated `assistantContent`, the
accumulator and the transcript are both unchanged.  (When no streaming
placeholder is last, even an empty delta appends a placeholder carrying the
accumulated content, as the counterexample shows; the source guards
`onDelta` with `if (content)`, so the empty delta never reaches
`updateAssistant` in the streaming flow.) -/
theorem c6_amended_empty_delta_noop (ac : String) (l : List Message) (m : Message)
    (hlast : l.getLast? = some m) (hrole : m.role = Role.assistant)
    (hid : m.id = "streaming") (hc : m.content = ac) :
    updateAssistant ac "" l = (ac, l) := by
  obtain ⟨l', rfl⟩ := List.getLast?_eq_some_iff.mp hlast
  have happ : ac ++ "" = ac := by simp
  have hm : ({ m with content := ac } : Message) = m := by
    cases m
    simp only [Message.mk.injEq]
    simp_all
  simp only [updateAssistant, List.getLast?_concat]
  rw [happ, if_pos ⟨hrole, hid⟩, setLastContent_concat, hm]

theorem c6_amended_empty_delta_noop_witness :
    (c6List.getLast? = some c6Last ∧ c6Last.role = Role.assistant ∧
      c6Last.id = "streaming" ∧ c6Last.content = "Hello") ∧
    updateAssistant "Hello" "" c6List = ("Hello", c6List) :=
  ⟨⟨by decide, rfl, rfl, rfl⟩,
   c6_amended_empty_delta_noop "Hello" c6List c6Last (by decide) rfl rfl rfl⟩

/-- C7: finalisation is idempotent.  A second `onDone` pass maps every
message through the id-replacement again, but after the first pass no
message bears the placeholder id (the durable id `Date.now().toString()` is
a digit string, hence ≠ "streaming"), so the second pass is the identity:
no second message is created and the assigned durable id is not changed.
When no streaming message is present at all, the pass is the identity. -/
theorem c7_finalize_idempotent :
    (∀ (l : List Message) (idA idB : String), idA ≠ "streaming" →
        finalizeMessages idB (finalizeMessages idA l) = finalizeMessages idA l) ∧
    (∀ (l : List Message) (idA : String), (∀ m ∈ l, m.id ≠ "streaming") →
        finalizeMessages idA l = l) := by
  constructor
  · intro l idA idB h
    unfold finalizeMessages
    rw [List.map_map]
    apply List.map_congr_left
    intro m _
    by_cases hm : m.id = "streaming"
    · simp [Function.comp, hm, h]
    · simp [Function.comp, hm]
  · intro l idA h
    unfold finalizeMessages
    have : ∀ m ∈ l, (if m.id = "streaming" then { m with id := idA } else m) = m :=
      fun m hm => if_neg (h m hm)
    rw [List.map_congr_left this]
    simp

theorem c7_finalize_idempotent_witness :
    (("1736200000000" : String) ≠ "streaming" ∧
      (∀ m ∈ ([⟨"w", Role.user, "q"⟩, ⟨"1736200000000", Role.assistant, "a"⟩] :
          List Message), m.id ≠ "streaming")) ∧
    finalizeMessages "1736200000099"
        (finalizeMessages "1736200000000"
          [⟨"w", Role.user, "q"⟩, ⟨"streaming", Role.assistant, "a"⟩]) =
      finalizeMessages "1736200000000"
        [⟨"w", Role.user, "q"⟩, ⟨"streaming", Role.assistant, "a"⟩] ∧
    finalizeMessages "1736200000000"
        [⟨"w", Role.user, "q"⟩, ⟨"1736200000000", Role.assistant, "a"⟩] =
      [⟨"w", Role.user, "q"⟩, ⟨"1736200000000", Role.assistant, "a"⟩] :=
  ⟨⟨by decide, by decide⟩,
   c7_finalize_idempotent.1 _ "1736200000000" "1736200000099" (by decide),
   c7_finalize_idempotent.2 _ "1736200000000" (by decide)⟩

/-- C8 counterexample: the bare "at most one streaming message" property is
not preserved by delta application.  In a transcript whose streaming
placeholder is not the last message (reachable after a mid-stream network
failure leaves the placeholder unfinalised and the next send appends a user
message behind it), `updateAssistant` appends a second placeholder: the
streaming count goes from 1 to 2. -/
theorem c8_counterexample :
    countStreaming [⟨"streaming", Role.assistant, "par"⟩, ⟨"7", Role.user, "hi"⟩] = 1 ∧
    countStreaming (updateAssistant "par" "x"
      [⟨"streaming", Role.assistant, "par"⟩, ⟨"7", Role.user, "hi"⟩]).2 = 2 := by
  decide

/-- C8 amended: the invariant that holds and is preserved is the stronger
"any streaming placeholder is the final message and has role assistant"
(`streamingTailInv`).  It implies the at-most-one count bound, and it is
preserved by delta application, finalisation, conversation load (the loaded
rows carry database ids, never the placeholder id), and reset. -/
theorem c8_amended_tail_invariant :
    (∀ l, streamingTailInv l → countStreaming l ≤ 1) ∧
    (∀ (ac d : String) (l : List Message), streamingTailInv l →
        streamingTailInv (updateAssistant ac d l).2) ∧
    (∀ (durableId : String) (l : List Message), streamingTailInv l →
        streamingTailInv (finalizeMessages durableId l)) ∧
    (∀ loaded : List Message, (∀ m ∈ loaded, m.id ≠ "streaming") →
        streamingTailInv (loadMessages loaded)) ∧
    streamingTailInv resetMessages := by
  refine ⟨?_, ?_, ?_, ?_, ?_⟩
  · intro l hinv
    rcases List.eq_nil_or_concat l with rfl | ⟨l', m, rfl⟩
    · simp [countStreaming]
    · rw [List.concat_eq_append] at hinv ⊢
      unfold countStreaming
      rw [List.countP_append]
      have h1 : l'.countP (fun m => m.id = "streaming") = 0 := by
        rw [List.countP_eq_zero]
        intro x hx
        have := hinv.1 x (by rw [List.dropLast_concat]; exact hx)
        simpa using this
      have h2 : [m].countP (fun m => m.id = "streaming") ≤ 1 := by
        by_cases hm : m.id = "streaming" <;> simp [List.countP_cons, hm]
      omega
  · intro ac d l hinv
    unfold updateAssistant
    rcases hl : l.getLast? with _ | m
    · have : l = [] := List.getLast?_eq_none_iff.mp hl
      subst this
      exact ⟨by simp, by simp [Option.mem_def]⟩
    · obtain ⟨l', rfl⟩ := List.getLast?_eq_some_iff.mp hl
      show streamingTailInv
        (if m.role = Role.assistant ∧ m.id = "streaming" then
          setLastContent (ac ++ d) (l' ++ [m])
        else (l' ++ [m]) ++ [{ id := "streaming", role := Role.assistant, content := ac ++ d }])
      by_cases hc : m.role = Role.assistant ∧ m.id = "streaming"
      · rw [if_pos hc, setLastContent_concat]
        constructor
        · intro x hx
          rw [List.dropLast_concat] at hx
          exact hinv.1 x (by rw [List.dropLast_concat]; exact hx)
        · intro x hx _
          rw [List.getLast?_concat] at hx
          have : x = { m with content := ac ++ d } := (Option.mem_some_iff.mp hx).symm
          rw [this]
          exact hc.1
      · rw [if_neg hc]
        constructor
        · intro x hx
          rw [List.dropLast_concat] at hx
          rcases List.mem_append.mp hx with h1 | h2
          · exact hinv.1 x (by rw [List.dropLast_concat]; exact h1)
          · have hxm : x = m := by simpa using h2
            rw [hxm]
            intro hxs
            have hrole := hinv.2 m (by rw [List.getLast?_concat]; rfl) hxs
            exact hc ⟨hrole, hxs⟩
        · intro x hx _
          rw [List.getLast?_concat] at hx
          have : x = ({ id := "streaming", role := Role.assistant, content := ac ++ d } :
              Message) := (Option.mem_some_iff.mp hx).symm
          rw [this]
  · intro durableId l hinv
    rcases List.eq_nil_or_concat l with rfl | ⟨l', m, rfl⟩
    · exact ⟨by simp [finalizeMessages], by simp [finalizeMessages, Option.mem_def]⟩
    · rw [List.concat_eq_append] at hinv ⊢
      unfold finalizeMessages
      rw [List.map_append]
      constructor
      · intro x hx
        simp only [List.map_cons, List.map_nil, List.dropLast_concat] at hx
        obtain ⟨y, hy, rfl⟩ := List.mem_map.mp hx
        have hyne := hinv.1 y (by rw [List.dropLast_concat]; exact hy)
        rw [if_neg hyne]
        exact hyne
      · intro x hx hxs
        simp only [List.map_cons, List.map_nil, List.getLast?_concat] at hx
        have hx' : x = if m.id = "streaming" then { m with id := durableId } else m :=
          (Option.mem_some_iff.mp hx).symm
        by_cases hm : m.id = "streaming"
        · rw [hx', if_pos hm]
          exact hinv.2 m (by rw [List.getLast?_concat]; rfl) hm
        · rw [if_neg hm] at hx'
          subst hx'
          exact absurd hxs hm
  · intro loaded hload
    unfold loadMessages
    by_cases hl : loaded = []
    · rw [if_pos hl]
      exact ⟨by simp, by simp [Option.mem_def, INITIAL_MESSAGE]⟩
    · rw [if_neg hl]
      constructor
      · intro x hx
        have hx' : x ∈ INITIAL_MESSAGE :: loaded := List.dropLast_subset _ hx
        rcases List.mem_cons.mp hx' with rfl | h2
        · simp [INITIAL_MESSAGE]
        · exact hload x h2
      · intro x hx hxs
        have hx' : x ∈ INITIAL_MESSAGE :: loaded :=
          List.mem_of_mem_getLast? hx
        rcases List.mem_cons.mp hx' with rfl | h2
        · exact absurd hxs (by simp [INITIAL_MESSAGE])
        · exact absurd hxs (hload x h2)
  · decide

theorem c8_amended_tail_invariant_witness :
    (streamingTailInv c8List ∧
      (∀ m ∈ ([⟨"m1", Role.user, "hi"⟩] : List Message), m.id ≠ "streaming")) ∧
    countStreaming c8List ≤ 1 ∧
    streamingTailInv (updateAssistant "a" "b" c8List).2 ∧
    streamingTailInv (finalizeMessages "1736200000000" c8List) ∧
    streamingTailInv (loadMessages [⟨"m1", Role.user, "hi"⟩]) ∧
    streamingTailInv resetMessages :=
  ⟨⟨by decide, by decide⟩,
   c8_amended_tail_invariant.1 c8List (by decide),
   c8_amended_tail_invariant.2.1 "a" "b" c8List (by decide),
   c8_amended_tail_invariant.2.2.1 "1736200000000" c8List (by decide),
   c8_amended_tail_invariant.2.2.2.1 [⟨"m1", Role.user, "hi"⟩] (by decide),
   c8_amended_tail_invariant.2.2.2.2⟩

/-! ### Claim theorems: session flow -/

set_option maxRecDepth 8000 in
/-- C2 (bug demonstration): the code has no session-generation counter and
no reset guard — `updateAssistant` is a live closure over `setMessages`.
After the UI switches conversation mid-stream (the `loadMessages` effect
installs the new conversation's transcript), the next delta of the
abandoned stream still fires `updateAssistant`, which appends a streaming
placeholder carrying the old stream's accumulated content to the NEW
conversation's transcript: the loaded transcript is mutated, contradicting
the claim. -/
theorem c2_abandoned_stream_mutates :
    (updateAssistant "AB" "C" (loadMessages c2Loaded)).2 =
      loadMessages c2Loaded ++ [⟨"streaming", Role.assistant, "ABC"⟩] ∧
    (updateAssistant "AB" "C" (loadMessages c2Loaded)).2 ≠ loadMessages c2Loaded := by
  decide

/-- C5: when the network call returns HTTP 429, `streamChat` throws the
rate-limit error before reading any stream; the `catch` block surfaces it
as exactly one toast, no assistant message is added (only the optimistic
user message was appended), and `isLoading` is cleared — the session is
idle again. -/
theorem c5_rate_limited (msgs : List Message) (canPersist : Bool)
    (input userId durableId : String) (eb : Option String) (body : Option (List String))
    (hin : trimStr input ≠ "") :
    (sendMessageModel msgs false canPersist input userId durableId
        ⟨false, 429, eb, body⟩).toasts =
      ["Rate limit exceeded. Please wait a moment and try again."] ∧
    countRole Role.assistant
        (sendMessageModel msgs false canPersist input userId durableId
          ⟨false, 429, eb, body⟩).messages =
      countRole Role.assistant msgs ∧
    (sendMessageModel msgs false canPersist input userId durableId
        ⟨false, 429, eb, body⟩).isLoading = false ∧
    (sendMessageModel msgs false canPersist input userId durableId
        ⟨false, 429, eb, body⟩).messages =
      msgs ++ [⟨userId, Role.user, trimStr input⟩] := by
  have hs : streamChatS ⟨false, 429, eb, body⟩ =
      Except.error "Rate limit exceeded. Please wait a moment and try again." := rfl
  unfold sendMessageModel
  rw [if_neg (by simp [hin]), hs]
  refine ⟨rfl, ?_, rfl, rfl⟩
  unfold countRole
  rw [List.countP_append]
  simp [List.countP_cons]

theorem c5_rate_limited_witness :
    (trimStr "What tests do I need?" ≠ "") ∧
    (sendMessageModel freshMessages false true "What tests do I need?" "1736" "1737"
        ⟨false, 429, none, none⟩).toasts =
      ["Rate limit exceeded. Please wait a moment and try again."] ∧
    countRole Role.assistant
        (sendMessageModel freshMessages false true "What tests do I need?" "1736" "1737"
          ⟨false, 429, none, none⟩).messages =
      countRole Role.assistant freshMessages ∧
    (sendMessageModel freshMessages false true "What tests do I need?" "1736" "1737"
        ⟨false, 429, none, none⟩).isLoading = false ∧
    (sendMessageModel freshMessages false true "What tests do I need?" "1736" "1737"
        ⟨false, 429, none, none⟩).messages =
      freshMessages ++ [⟨"1736", Role.user, trimStr "What tests do I need?"⟩] :=
  ⟨by decide,
   c5_rate_limited freshMessages true "What tests do I need?" "1736" "1737" none none
     (by decide)⟩

/-- C10: the welcome message heads the transcript in a fresh session, after
loading any conversation history, and after reset (new chat / clear-all /
delete-active all install `resetMessages`); whenever a send goes through,
the history payload put on the wire starts with the welcome message's
role and content; and the `saveMessage` calls a send issues are exactly the
trimmed user input plus (when a stream arrived and accumulated non-empty
content) the accumulated assistant text — they are built from the input and
the stream only, so the welcome message itself is never persisted. -/
theorem c10_welcome_invariant :
    (freshMessages.head? = some INITIAL_MESSAGE ∧
      resetMessages.head? = some INITIAL_MESSAGE ∧
      (∀ loaded, (loadMessages loaded).head? = some INITIAL_MESSAGE)) ∧
    (∀ (msgs : List Message) (canPersist : Bool) (input userId durableId : String)
        (r : NetResponse), msgs.head? = some INITIAL_MESSAGE → trimStr input ≠ "" →
        (sendMessageModel msgs false canPersist input userId durableId r).history.head? =
          some (Role.assistant, INITIAL_MESSAGE.content)) ∧
    (∀ (msgs : List Message) (canPersist : Bool) (input userId durableId : String)
        (st : Nat) (eb : Option String) (ds : List String), trimStr input ≠ "" →
        (sendMessageModel msgs false canPersist input userId durableId
            ⟨true, st, eb, some ds⟩).saves =
          (if canPersist then [(Role.user, trimStr input)] else []) ++
          (if canPersist ∧ concatStrs ds ≠ "" then [(Role.assistant, concatStrs ds)]
           else [])) := by
  refine ⟨⟨rfl, rfl, ?_⟩, ?_, ?_⟩
  · intro loaded
    unfold loadMessages
    by_cases hl : loaded = [] <;> simp [hl]
  · intro msgs canPersist input userId durableId r hhead hin
    cases msgs with
    | nil => cases hhead
    | cons a t =>
      have ha : a = INITIAL_MESSAGE := by simpa using hhead
      subst ha
      unfold sendMessageModel
      rw [if_neg (by simp [hin])]
      cases hsc : streamChatS r with
      | error e => rfl
      | ok ds => rfl
  · intro msgs canPersist input userId durableId st eb ds hin
    have hs : streamChatS ⟨true, st, eb, some ds⟩ = Except.ok ds := rfl
    unfold sendMessageModel
    rw [if_neg (by simp [hin]), hs]
    show _ ++ (if canPersist ∧ (applyDeltas "" _ ds).1 ≠ "" then
        [(Role.assistant, (applyDeltas "" _ ds).1)] else []) = _
    rw [applyDeltas_fst]
    simp

theorem c10_welcome_invariant_witness :
    ((freshMessages.head? = some INITIAL_MESSAGE) ∧
      (trimStr "Hi" ≠ "")) ∧
    (loadMessages c2Loaded).head? = some INITIAL_MESSAGE ∧
    (sendMessageModel freshMessages false true "Hi" "1736" "1737"
        ⟨true, 200, none, some ["GRE", ", TOEFL"]⟩).history.head? =
      some (Role.assistant, INITIAL_MESSAGE.content) ∧
    (sendMessageModel freshMessages false true "Hi" "1736" "1737"
        ⟨true, 200, none, some ["GRE", ", TOEFL"]⟩).saves =
      (if true then [(Role.user, trimStr "Hi")] else []) ++
      (if True ∧ concatStrs ["GRE", ", TOEFL"] ≠ "" then
        [(Role.assistant, concatStrs ["GRE", ", TOEFL"])] else []) := by
  refine ⟨⟨rfl, by decide⟩, c10_welcome_invariant.1.2.2 c2Loaded, ?_, ?_⟩
  · exact c10_welcome_invariant.2.1 freshMessages true "Hi" "1736" "1737"
      ⟨true, 200, none, some ["GRE", ", TOEFL"]⟩ rfl (by decide)
  · have := c10_welcome_invariant.2.2 freshMessages true "Hi" "1736" "1737" 200 none
      ["GRE", ", TOEFL"] (by decide)
    simpa using this
